import Mathlib

/-!
Verification of the Poker-Bot shared-ledger core (`src/cogs/money.py`).

The SQLite-backed state is embedded shallowly: the `users` table is a list
of `(user_id, balance)` rows in storage (insertion) order, the
`balance_changes` audit table is a list of events in insertion order (the
autoincrement `id` order), and the `REAL` balance column is modelled by `ℚ`.
Each Python coroutine that touches the database becomes a pure function on
this state; SQL `ORDER BY` is modelled by a structural insertion sort, and
the one place the Python can raise a `TypeError` (`split_excess` with an
empty `users` table and explicit mentions) returns `none`.
-/

namespace PokerBot

abbrev UserId := Nat

abbrev Money := ℚ

/-- A row of the `balance_changes` table (the autoincrement `id` is the
position in the list).  `timestamp` is seconds since the epoch, as filled
in by `DEFAULT CURRENT_TIMESTAMP`. -/
structure BalanceChange where
  user_id : UserId
  change : Money
  reason : Option String
  timestamp : Nat
deriving DecidableEq, Repr

/-- The database state: the `users` table in storage order and the
append-only `balance_changes` table in insertion order. -/
structure DB where
  users : List (UserId × Money)
  balance_changes : List BalanceChange
deriving DecidableEq, Repr

/-- `MoneyManager.initialize_user`: `INSERT OR IGNORE INTO users (user_id,
balance) VALUES (?, 0)` — inserts a row with balance `0` unless the primary
key is already present. -/
def initialize_user (db : DB) (user_id : UserId) : DB :=
  if db.users.any (fun r => r.1 == user_id) then db
  else { db with users := db.users ++ [(user_id, 0)] }

/-- The effect of `UPDATE users SET balance = balance + ? WHERE user_id = ?`
on the `users` table: rows whose key matches get the delta added, all other
rows (and the table when no row matches) are untouched. -/
def update_users (users : List (UserId × Money)) (user_id : UserId)
    (change : Money) : List (UserId × Money) :=
  users.map (fun r => if r.1 == user_id then (r.1, r.2 + change) else r)

/-- The first committed statement of `MoneyManager.update_balance`: the
`UPDATE users ...` followed by its own `commit()`. -/
def update_balance_stmt1 (db : DB) (user_id : UserId) (change : Money) : DB :=
  { db with users := update_users db.users user_id change }

/-- The second committed statement of `MoneyManager.update_balance`:
`INSERT INTO balance_changes (user_id, change, reason) VALUES (?, ?, ?)`
followed by its own `commit()`. -/
def update_balance_stmt2 (db : DB) (user_id : UserId) (change : Money)
    (reason : Option String) (now : Nat) : DB :=
  { db with balance_changes :=
      db.balance_changes ++ [⟨user_id, change, reason, now⟩] }

/-- `MoneyManager.update_balance`: the two statements above, executed and
committed one after the other. -/
def update_balance (db : DB) (user_id : UserId) (change : Money)
    (reason : Option String) (now : Nat) : DB :=
  update_balance_stmt2 (update_balance_stmt1 db user_id change)
    user_id change reason now

/-- `MoneyManager.update_balance` when one of its two separately committed
statements fails: a failing statement leaves the state already committed
and aborts the rest of the coroutine. -/
def update_balance_faulty (db : DB) (user_id : UserId) (change : Money)
    (reason : Option String) (now : Nat) (fail1 fail2 : Bool) : DB :=
  if fail1 then db
  else
    let db1 := update_balance_stmt1 db user_id change
    if fail2 then db1
    else update_balance_stmt2 db1 user_id change reason now

/-- `MoneyManager.get_balance`: `SELECT balance FROM users WHERE user_id = ?`,
returning `0.0` when no row exists. -/
def get_balance (db : DB) (user_id : UserId) : Money :=
  match db.users.find? (fun r => r.1 == user_id) with
  | some r => r.2
  | none => 0

/-- Insert into a list kept sorted by the boolean relation `le`. -/
def insertSorted {α : Type} (le : α → α → Bool) (a : α) : List α → List α
  | [] => [a]
  | b :: l => if le a b then a :: b :: l else b :: insertSorted le a l

/-- Structural insertion sort by the boolean relation `le`; models SQL
`ORDER BY` (stable, hence one legitimate refinement of SQLite's
unspecified tie order). -/
def sortBy {α : Type} (le : α → α → Bool) : List α → List α
  | [] => []
  | a :: l => insertSorted le a (sortBy le l)

/-- `MoneyManager.get_leaderboard`: `SELECT user_id, balance FROM users
ORDER BY balance DESC LIMIT ?`. -/
def get_leaderboard (db : DB) (limit : Nat) : List (UserId × Money) :=
  (sortBy (fun a b => decide (b.2 ≤ a.2)) db.users).take limit

/-- `SELECT SUM(balance) FROM users`: SQL `SUM` over an empty table is
`NULL` (Python `None`), hence the `Option`. -/
def sum_balances (db : DB) : Option Money :=
  if db.users.isEmpty then none
  else some (db.users.foldr (fun r acc => r.2 + acc) 0)

/-- The outcome reported by the `split-excess` command. -/
inductive SplitOutcome where
  | nothingToSplit
  | noUsers
  | done (total : Money) (share : Money)
deriving DecidableEq, Repr

/-- The target list of `MoneyCog.split_excess`: `if not mentions` (absent
or empty) every user id in the `users` table, else the mentioned ids. -/
def split_targets (db : DB) (mentions : Option (List UserId)) : List UserId :=
  match mentions with
  | none => db.users.map Prod.fst
  | some [] => db.users.map Prod.fst
  | some ms => ms

/-- `MoneyCog.split_excess`.  The Python compares `total_balance == 0`
(exact, and false for the `None` an empty table yields), computes
`split_amount = -1 * (total_balance / len(user_ids))` and calls
`update_balance(user_id, split_amount)` — with no reason argument — for
each target.  `none` is the `TypeError` raised when the `users` table is
empty (so `total_balance` is `None`) yet explicit mentions are given. -/
def split_excess (db : DB) (mentions : Option (List UserId)) (now : Nat) :
    Option (SplitOutcome × DB) :=
  let total? := sum_balances db
  if total? = some 0 then some (.nothingToSplit, db)
  else
    let user_ids := split_targets db mentions
    if user_ids = [] then some (.noUsers, db)
    else
      match total? with
      | none => none
      | some total =>
        let split_amount := -1 * (total / (user_ids.length : Money))
        some (.done total split_amount,
          user_ids.foldl (fun d u => update_balance d u split_amount none now) db)

/-- One call against the Balance Manager, as issued by the command layer:
user initialization, a balance adjustment, or a whole redistribution. -/
inductive LedgerOp where
  | ensure (user_id : UserId)
  | adjust (user_id : UserId) (change : Money) (reason : Option String) (now : Nat)
  | split (mentions : Option (List UserId)) (now : Nat)

/-- Apply one operation to the database (a crashing `split_excess` has
performed no write). -/
def applyOp (db : DB) : LedgerOp → DB
  | .ensure u => initialize_user db u
  | .adjust u c r t => update_balance db u c r t
  | .split ms t =>
      match split_excess db ms t with
      | some (_, db') => db'
      | none => db

/-- Apply a finite sequence of operations in order. -/
def applyOps (db : DB) (ops : List LedgerOp) : DB := ops.foldl applyOp db

/-- Whether a `users` row with this key exists. -/
def hasUser (db : DB) (user_id : UserId) : Bool :=
  db.users.any (fun r => r.1 == user_id)

/-- `SELECT SUM(change) FROM balance_changes WHERE user_id = ?` over the
model: the algebraic sum of all audit deltas recorded for the user. -/
def sumDeltas (db : DB) (user_id : UserId) : Money :=
  ((db.balance_changes.filter (fun e => e.user_id == user_id)).map
    (fun e => e.change)).sum

/-- How many `users` rows carry this key (the primary key keeps it at most
one; `initialize_user` must not push it further). -/
def countUserRows (db : DB) (user_id : UserId) : Nat :=
  (db.users.filter (fun r => r.1 == user_id)).length

/-- The per-user consistency invariant: the user has a ledger row and the
audit deltas recorded for it sum to its ledger balance. -/
def consistent (db : DB) (u : UserId) : Prop :=
  hasUser db u = true ∧ sumDeltas db u = get_balance db u

/-- `SELECT change, timestamp FROM balance_changes WHERE user_id = ? ORDER BY
timestamp` inside `MoneyCog.generate_balance_graph`: the user's events,
sorted by timestamp ascending. -/
def fetch_changes (db : DB) (user_id : UserId) : List BalanceChange :=
  sortBy (fun a b => decide (a.timestamp ≤ b.timestamp))
    (db.balance_changes.filter (fun e => e.user_id == user_id))

/-- Running sums continuing from `acc`. -/
def cumsumFrom (acc : Money) : List Money → List Money
  | [] => []
  | c :: rest => (acc + c) :: cumsumFrom (acc + c) rest

/-- `balances = [sum(change[0] for change in changes[:i+1]) for i in
range(len(changes))]`: the running balance after each event. -/
def cumsum (l : List Money) : List Money := cumsumFrom 0 l

/-- The eight-hour UTC-to-PST shift applied to every plotted timestamp. -/
def pst_shift : Int := 8 * 3600

/-- The x-coordinates of one user's graph before downsampling: the event
timestamps (shifted to PST) with `now` (also shifted) appended. -/
def raw_timestamps (db : DB) (user_id : UserId) (now : Nat) : List Int :=
  (fetch_changes db user_id).map (fun e => (e.timestamp : Int) - pst_shift)
    ++ [(now : Int) - pst_shift]

/-- The y-coordinates of one user's graph before downsampling: the
cumulative sums of the deltas with the current ledger balance appended. -/
def raw_balances (db : DB) (user_id : UserId) : List Money :=
  cumsum ((fetch_changes db user_id).map (fun e => e.change))
    ++ [get_balance db user_id]

/-- Python's `l[::step]` for `step ≥ 1`: keep the elements at indices
`0, step, 2*step, ...`. -/
def everyNth {α : Type} (l : List α) (step : Nat) : List α :=
  (l.enum.filter (fun p => p.1 % step == 0)).map Prod.snd

/-- The label granularity picked for a user's series: `'%m/%d/%y'` (day)
or `'%m/%d/%y-%I%p'` (hour). -/
inductive Granularity where
  | day
  | hour
deriving DecidableEq, Repr

/-- One user's downsampled series as handed to the plotting call. -/
structure UserSeries where
  granularity : Granularity
  timestamps : List Int
  balances : List Money
deriving DecidableEq, Repr

/-- The per-user body of `MoneyCog.generate_balance_graph`: users with no
events are skipped (`continue`); otherwise the cumulative series plus the
synthetic `(now, current_balance)` point is built, the span in whole days
(`timedelta.days`, i.e. floor division by 86400 seconds) decides the
granularity, and both coordinate lists are sliced `[::step]`. -/
def user_graph_points (db : DB) (user_id : UserId) (now : Nat) :
    Option UserSeries :=
  if fetch_changes db user_id = [] then none
  else if Int.fdiv ((raw_timestamps db user_id now).getLastD 0
      - (raw_timestamps db user_id now).headD 0) 86400 > 7 then
    some ⟨.day,
      everyNth (raw_timestamps db user_id now)
        (max 1 ((raw_timestamps db user_id now).length / 7)),
      everyNth (raw_balances db user_id)
        (max 1 ((raw_timestamps db user_id now).length / 7))⟩
  else
    some ⟨.hour,
      everyNth (raw_timestamps db user_id now)
        (max 1 ((raw_timestamps db user_id now).length / (7 * 24))),
      everyNth (raw_balances db user_id)
        (max 1 ((raw_timestamps db user_id now).length / (7 * 24)))⟩

/-- Membership in an `insertSorted` result. -/
theorem mem_insertSorted {α : Type} (le : α → α → Bool) (a x : α) :
    ∀ l : List α, x ∈ insertSorted le a l ↔ x = a ∨ x ∈ l
  | [] => by simp [insertSorted]
  | b :: l => by
    cases hab : le a b with
    | true => simp [insertSorted, hab]
    | false =>
      simp only [insertSorted, hab, Bool.false_eq_true, if_false, List.mem_cons,
        mem_insertSorted le a x l]
      tauto

/-- Inserting into a sorted list keeps it sorted, given transitivity and
totality of the boolean relation. -/
theorem pairwise_insertSorted {α : Type} (le : α → α → Bool)
    (htrans : ∀ x y z, le x y = true → le y z = true → le x z = true)
    (htot : ∀ x y, le x y = false → le y x = true) (a : α) :
    ∀ l : List α, l.Pairwise (fun x y => le x y = true) →
      (insertSorted le a l).Pairwise (fun x y => le x y = true)
  | [], _ => by simp [insertSorted]
  | b :: l, hp => by
    rcases List.pairwise_cons.mp hp with ⟨hb, hl⟩
    cases hab : le a b with
    | true =>
      simp only [insertSorted, hab, if_true]
      refine List.pairwise_cons.mpr ⟨?_, hp⟩
      intro y hy
      rcases List.mem_cons.mp hy with rfl | hy
      · exact hab
      · exact htrans a b y hab (hb y hy)
    | false =>
      simp only [insertSorted, hab, Bool.false_eq_true, if_false]
      refine List.pairwise_cons.mpr ⟨?_, pairwise_insertSorted le htrans htot a l hl⟩
      intro y hy
      rcases (mem_insertSorted le a y l).mp hy with h | hy
      · rw [h]
        exact htot a b hab
      · exact hb y hy

/-- The insertion sort produces a list that is pairwise ordered by `le`. -/
theorem pairwise_sortBy {α : Type} (le : α → α → Bool)
    (htrans : ∀ x y z, le x y = true → le y z = true → le x z = true)
    (htot : ∀ x y, le x y = false → le y x = true) :
    ∀ l : List α, (sortBy le l).Pairwise (fun x y => le x y = true)
  | [] => by simp [sortBy]
  | a :: l =>
    pairwise_insertSorted le htrans htot a (sortBy le l)
      (pairwise_sortBy le htrans htot l)

/-- `insertSorted` only rearranges: the length grows by one. -/
theorem length_insertSorted {α : Type} (le : α → α → Bool) (a : α) :
    ∀ l : List α, (insertSorted le a l).length = l.length + 1
  | [] => rfl
  | b :: l => by
    cases hab : le a b with
    | true => simp [insertSorted, hab]
    | false => simp [insertSorted, hab, length_insertSorted le a l]

/-- `sortBy` preserves the length. -/
theorem length_sortBy {α : Type} (le : α → α → Bool) :
    ∀ l : List α, (sortBy le l).length = l.length
  | [] => rfl
  | a :: l => by simp [sortBy, length_insertSorted, length_sortBy le l]

/-- The `UPDATE` statement never touches the `user_id` column. -/
theorem map_fst_update_users (v : UserId) (c : Money) (users : List (UserId × Money)) :
    (update_users users v c).map Prod.fst = users.map Prod.fst := by
  induction users with
  | nil => rfl
  | cons r users ih =>
    show ((if r.1 == v then (r.1, r.2 + c) else r) :: update_users users v c).map
        Prod.fst = r.1 :: users.map Prod.fst
    rw [List.map_cons, ih]
    congr 1
    split
    · rfl
    · rfl

/-- Row lookup after the `UPDATE` statement: the found row is the old row
with the delta added when its key matches the updated one. -/
theorem find?_update_users (u v : UserId) (c : Money) (users : List (UserId × Money)) :
    (update_users users v c).find? (fun r => r.1 == u)
      = (users.find? (fun r => r.1 == u)).map
          (fun r => if r.1 == v then (r.1, r.2 + c) else r) := by
  induction users with
  | nil => rfl
  | cons r users ih =>
    have hfst : (if r.1 == v then (r.1, r.2 + c) else r).1 = r.1 := by
      split
      · rfl
      · rfl
    have hcons : update_users (r :: users) v c
        = (if r.1 == v then (r.1, r.2 + c) else r) :: update_users users v c := rfl
    rw [hcons, List.find?_cons, List.find?_cons]
    simp only [hfst]
    cases hu : r.1 == u with
    | true => rfl
    | false => exact ih

/-- The `UPDATE` statement does not change which keys have a row. -/
theorem any_fst_update_users (v : UserId) (c : Money) (u : UserId)
    (users : List (UserId × Money)) :
    (update_users users v c).any (fun r => r.1 == u)
      = users.any (fun r => r.1 == u) := by
  induction users with
  | nil => rfl
  | cons r users ih =>
    have hfst : (if r.1 == v then (r.1, r.2 + c) else r).1 = r.1 := by
      split
      · rfl
      · rfl
    show ((if r.1 == v then (r.1, r.2 + c) else r) :: update_users users v c).any
        (fun r => r.1 == u) = (r :: users).any (fun r => r.1 == u)
    rw [List.any_cons, List.any_cons, hfst, ih]

/-- `update_balance` does not create or delete ledger rows. -/
theorem hasUser_update_balance (db : DB) (v : UserId) (c : Money)
    (r : Option String) (t : Nat) (u : UserId) :
    hasUser (update_balance db v c r t) u = hasUser db u :=
  any_fst_update_users v c u db.users

/-- The audit-delta sum moves by the delta exactly for the adjusted user. -/
theorem sumDeltas_update_balance (db : DB) (v : UserId) (c : Money)
    (r : Option String) (t : Nat) (u : UserId) :
    sumDeltas (update_balance db v c r t) u
      = sumDeltas db u + (if v == u then c else 0) := by
  cases hvu : v == u with
  | true =>
    simp [sumDeltas, update_balance, update_balance_stmt1, update_balance_stmt2,
      List.filter_append, hvu]
  | false =>
    simp [sumDeltas, update_balance, update_balance_stmt1, update_balance_stmt2,
      List.filter_append, hvu]

/-- The ledger balance moves by the delta exactly for the adjusted user,
provided that user's row exists; a missing row is silently skipped by the
SQL `UPDATE`. -/
theorem get_balance_update_balance (db : DB) (v : UserId) (c : Money)
    (r : Option String) (t : Nat) (u : UserId) :
    get_balance (update_balance db v c r t) u
      = get_balance db u + (if u == v && hasUser db u then c else 0) := by
  unfold get_balance update_balance update_balance_stmt1 update_balance_stmt2 hasUser
  simp only
  rw [find?_update_users]
  cases hf : db.users.find? (fun r => r.1 == u) with
  | none =>
    have hany : db.users.any (fun r => r.1 == u) = false :=
      List.any_eq_false.mpr
        (fun x hx => by simpa using List.find?_eq_none.mp hf x hx)
    simp [hany]
  | some row =>
    have hru : row.1 = u := by simpa using List.find?_some hf
    have hmem : row ∈ db.users := List.mem_of_find?_eq_some hf
    have hany : db.users.any (fun r => r.1 == u) = true :=
      List.any_eq_true.mpr ⟨row, hmem, by simpa using hru⟩
    cases huv : u == v with
    | true =>
      have huv' : u = v := by simpa using huv
      have hrv : row.1 = v := by rw [hru, huv']
      simp [hany, huv, hrv]
    | false =>
      have huv' : ¬u = v := by simpa using huv
      have hrv : ¬row.1 = v := by rw [hru]; exact huv'
      simp [hany, huv, hrv]

/-- A balance adjustment — to this or to any other existing or missing
user — preserves the invariant of a consistent, initialized user. -/
theorem consistent_update_balance (db : DB) (u v : UserId) (c : Money)
    (r : Option String) (t : Nat) (h : consistent db u) :
    consistent (update_balance db v c r t) u := by
  obtain ⟨h1, h2⟩ := h
  refine ⟨by rw [hasUser_update_balance]; exact h1, ?_⟩
  rw [sumDeltas_update_balance, get_balance_update_balance, h2, h1]
  cases hvu : v == u with
  | true =>
    have hvu' : v = u := by simpa using hvu
    have : (u == v) = true := by simp [hvu']
    simp [this]
  | false =>
    have hvu' : ¬v = u := by simpa using hvu
    have : (u == v) = false := by simp; exact fun h => hvu' h.symm
    simp [this]

/-- User initialization (of anyone) preserves the invariant of a
consistent user. -/
theorem consistent_initialize_user (db : DB) (v u : UserId)
    (h : consistent db u) : consistent (initialize_user db v) u := by
  obtain ⟨h1, h2⟩ := h
  unfold initialize_user
  cases hv : db.users.any (fun r => r.1 == v) with
  | true => exact ⟨h1, h2⟩
  | false =>
    simp only [Bool.false_eq_true, if_false]
    have h1' : db.users.any (fun r => r.1 == u) = true := h1
    obtain ⟨x, hx, hpx⟩ := List.any_eq_true.mp h1'
    have hsome : (db.users.find? (fun r => r.1 == u)).isSome :=
      List.find?_isSome.mpr ⟨x, hx, hpx⟩
    obtain ⟨row, hrow⟩ := Option.isSome_iff_exists.mp hsome
    constructor
    · show (db.users ++ [(v, 0)]).any (fun r => r.1 == u) = true
      simp only [List.any_append, h1', Bool.true_or]
    · show sumDeltas db u
        = get_balance ⟨db.users ++ [(v, 0)], db.balance_changes⟩ u
      unfold get_balance at h2 ⊢
      simp only [List.find?_append, hrow, Option.or_some] at h2 ⊢
      exact h2

/-- A redistribution pass — a fold of balance adjustments — preserves the
invariant of a consistent user. -/
theorem consistent_foldl_update (u : UserId) (c : Money) (r : Option String)
    (t : Nat) :
    ∀ (us : List UserId) (db : DB), consistent db u →
      consistent (us.foldl (fun d w => update_balance d w c r t) db) u
  | [], _, h => h
  | w :: us, db, h =>
    consistent_foldl_update u c r t us (update_balance db w c r t)
      (consistent_update_balance db u w c r t h)

/-- `split_excess` (its writes happen only through `update_balance`)
preserves the invariant of a consistent user. -/
theorem consistent_split_excess (db : DB) (u : UserId)
    (ms : Option (List UserId)) (t : Nat) (h : consistent db u) :
    consistent (match split_excess db ms t with
                | some (_, db') => db'
                | none => db) u := by
  unfold split_excess
  by_cases h0 : sum_balances db = some 0
  · simp only [h0, if_pos rfl]
    exact h
  · simp only [if_neg h0]
    by_cases hids : split_targets db ms = []
    · simp only [hids, if_pos rfl]
      exact h
    · simp only [if_neg hids]
      cases hs : sum_balances db with
      | none => exact h
      | some total =>
        exact consistent_foldl_update u _ none t (split_targets db ms) db h

/-- Every Balance Manager operation preserves the invariant of a
consistent user. -/
theorem consistent_applyOp (db : DB) (u : UserId) (op : LedgerOp)
    (h : consistent db u) : consistent (applyOp db op) u := by
  cases op with
  | ensure v => exact consistent_initialize_user db v u h
  | adjust v c r t => exact consistent_update_balance db u v c r t h
  | split ms t => exact consistent_split_excess db u ms t h

/-- Any finite sequence of operations preserves the invariant of a
consistent user. -/
theorem consistent_applyOps (u : UserId) :
    ∀ (ops : List LedgerOp) (db : DB), consistent db u →
      consistent (applyOps db ops) u
  | [], _, h => h
  | op :: ops, db, h =>
    consistent_applyOps u ops (applyOp db op) (consistent_applyOp db u op h)

/-- Initializing a fresh user (no ledger row, no stray audit events)
establishes the invariant. -/
theorem consistent_after_ensure (db : DB) (u : UserId)
    (h0 : hasUser db u = false) (h1 : sumDeltas db u = 0) :
    consistent (initialize_user db u) u := by
  have h0' : db.users.any (fun r => r.1 == u) = false := h0
  have hnone : db.users.find? (fun r => r.1 == u) = none :=
    List.find?_eq_none.mpr (fun x hx => by
      have := List.any_eq_false.mp h0' x hx
      simpa using this)
  unfold initialize_user
  rw [h0']
  simp only [Bool.false_eq_true, if_false]
  constructor
  · show (db.users ++ [(u, 0)]).any (fun r => r.1 == u) = true
    simp
  · show sumDeltas db u
      = get_balance ⟨db.users ++ [(u, 0)], db.balance_changes⟩ u
    unfold get_balance
    simp only [List.find?_append, hnone, Option.none_or]
    rw [h1]
    simp [List.find?]

/-- C1: for a user initialized via `ensureUser` (`initialize_user`) from a
state with no ledger row and no stray audit events, after any finite
sequence of operations — further initializations, `adjustBalance`
(`update_balance`) calls on any users, and redistributions (which issue
their writes through `update_balance`) — the sum of all deltas recorded in
`balance_changes` for that user equals the ledger balance `get_balance`
returns for it. -/
theorem audit_sum_invariant (db : DB) (u : UserId) (ops : List LedgerOp)
    (h0 : hasUser db u = false) (h1 : sumDeltas db u = 0) :
    sumDeltas (applyOps (initialize_user db u) ops) u
      = get_balance (applyOps (initialize_user db u) ops) u :=
  (consistent_applyOps u ops (initialize_user db u)
    (consistent_after_ensure db u h0 h1)).2

/-- Witness for C1: a fresh user, one profit of 10, then a global
redistribution; the audit deltas still sum to the ledger balance. -/
theorem audit_sum_invariant_witness :
    sumDeltas (applyOps (initialize_user ⟨[], []⟩ 1)
        [.adjust 1 10 none 0, .split none 1]) 1
      = get_balance (applyOps (initialize_user ⟨[], []⟩ 1)
        [.adjust 1 10 none 0, .split none 1]) 1 :=
  audit_sum_invariant ⟨[], []⟩ 1 [.adjust 1 10 none 0, .split none 1]
    (by rfl) (by simp [sumDeltas])

/-- C9: `ensureUser` (`initialize_user`) is idempotent — applying it twice
equals applying it once, it leaves exactly one row for the user without
ever duplicating it, and on an already-present user (whatever its balance)
it is a strict no-op, so an existing balance is never overwritten. -/
theorem ensure_user_idempotent (db : DB) (u : UserId) :
    initialize_user (initialize_user db u) u = initialize_user db u ∧
    countUserRows (initialize_user db u) u = max (countUserRows db u) 1 ∧
    (hasUser db u = true → initialize_user db u = db) := by
  cases hv : db.users.any (fun r => r.1 == u) with
  | true =>
    have hid : initialize_user db u = db := by
      unfold initialize_user
      rw [hv]
      simp
    obtain ⟨x, hx, hpx⟩ := List.any_eq_true.mp hv
    have hpos : 1 ≤ countUserRows db u := by
      have : x ∈ db.users.filter (fun r => r.1 == u) :=
        List.mem_filter.mpr ⟨hx, hpx⟩
      have := List.length_pos.mpr (List.ne_nil_of_mem this)
      unfold countUserRows
      omega
    refine ⟨by rw [hid, hid], ?_, fun _ => hid⟩
    rw [hid, Nat.max_eq_left hpos]
  | false =>
    have hfalse : hasUser db u = false := hv
    have hstep : initialize_user db u = ⟨db.users ++ [(u, 0)], db.balance_changes⟩ := by
      unfold initialize_user
      rw [hv]
      simp
    have hfilter : db.users.filter (fun r => r.1 == u) = [] :=
      List.filter_eq_nil_iff.mpr (fun x hx => by
        simpa using List.any_eq_false.mp hv x hx)
    refine ⟨?_, ?_, fun htrue => absurd htrue (by simp [hfalse])⟩
    · rw [hstep]
      unfold initialize_user
      simp
    · rw [hstep]
      unfold countUserRows
      simp only [List.filter_append]
      rw [hfilter]
      simp [countUserRows, hfilter]

/-- Witness for C9: a user already holding a nonzero balance is left
exactly as it was. -/
theorem ensure_user_idempotent_witness :
    hasUser ⟨[(1, 7)], []⟩ 1 = true ∧
    initialize_user ⟨[(1, 7)], []⟩ 1 = ⟨[(1, 7)], []⟩ :=
  ⟨by rfl, (ensure_user_idempotent ⟨[(1, 7)], []⟩ 1).2.2 (by rfl)⟩

/-- C10: `update_balance` on a user with no ledger row still appends the
audit event while the `UPDATE` touches no row, so `get_balance` afterwards
returns `0` and the per-user sum-of-deltas invariant fails (whenever the
recorded deltas do not happen to cancel). -/
theorem update_uninitialized_user (db : DB) (u : UserId) (c : Money)
    (r : Option String) (t : Nat) (h0 : hasUser db u = false)
    (h1 : sumDeltas db u + c ≠ 0) :
    (update_balance db u c r t).users = db.users ∧
    (update_balance db u c r t).balance_changes
      = db.balance_changes ++ [⟨u, c, r, t⟩] ∧
    get_balance (update_balance db u c r t) u = 0 ∧
    sumDeltas (update_balance db u c r t) u
      ≠ get_balance (update_balance db u c r t) u := by
  have hall := List.any_eq_false.mp h0
  have husers : (update_balance db u c r t).users = db.users := by
    show update_users db.users u c = db.users
    unfold update_users
    calc db.users.map (fun x => if x.1 == u then (x.1, x.2 + c) else x)
        = db.users.map id := List.map_congr_left (fun x hx => by
            have hx' := hall x hx
            simp only [Bool.not_eq_true] at hx'
            simp [hx'])
      _ = db.users := List.map_id _
  have hbal : get_balance (update_balance db u c r t) u = 0 := by
    unfold get_balance
    rw [husers]
    have hnone : db.users.find? (fun r => r.1 == u) = none :=
      List.find?_eq_none.mpr (fun x hx => by simpa using hall x hx)
    rw [hnone]
  have hsum : sumDeltas (update_balance db u c r t) u = sumDeltas db u + c := by
    rw [sumDeltas_update_balance]
    simp
  refine ⟨husers, rfl, hbal, ?_⟩
  rw [hsum, hbal]
  exact h1

/-- Witness for C10: a single delta of `5` logged against a never
initialized user leaves the ledger at `0` against an audit sum of `5`. -/
theorem update_uninitialized_user_witness :
    sumDeltas (update_balance ⟨[], []⟩ 1 5 none 0) 1
      ≠ get_balance (update_balance ⟨[], []⟩ 1 5 none 0) 1 :=
  (update_uninitialized_user ⟨[], []⟩ 1 5 none 0 (by rfl)
    (by norm_num [sumDeltas])).2.2.2

/-- C2 counterexample: when the audit-log append fails after the balance
update committed, no event is recorded yet the ledger change is visible —
user 1 moved from 0 to 5 — refuting the claim that a failed append leaves
the ledger unchanged. -/
theorem update_atomicity_cex :
    (update_balance_faulty ⟨[(1, 0)], []⟩ 1 5 none 0 false true).balance_changes
      = [] ∧
    get_balance (update_balance_faulty ⟨[(1, 0)], []⟩ 1 5 none 0 false true) 1
      = 5 ∧
    ¬(update_balance_faulty ⟨[(1, 0)], []⟩ 1 5 none 0 false true).users
      = [(1, 0)] := by
  refine ⟨rfl, ?_, ?_⟩
  · simp [update_balance_faulty, update_balance_stmt1, update_users,
      get_balance, List.find?]
  · simp [update_balance_faulty, update_balance_stmt1, update_users]

/-- C2 (amended): the two writes of `update_balance` are committed one
after the other, not as one atomic unit: a failure of the audit-log append
leaves the already committed balance update visible, while a failure of
the balance update aborts before anything is written, so no event is
appended. -/
theorem update_commits_sequential (db : DB) (u : UserId) (c : Money)
    (r : Option String) (t : Nat) :
    update_balance_faulty db u c r t false true = update_balance_stmt1 db u c ∧
    (update_balance_faulty db u c r t false true).balance_changes
      = db.balance_changes ∧
    (∀ f2 : Bool, update_balance_faulty db u c r t true f2 = db) ∧
    update_balance_faulty db u c r t false false = update_balance db u c r t :=
  ⟨rfl, rfl, fun _ => rfl, rfl⟩

/-- C3 counterexample: a lone user at balance 1/200 puts the global sum
within the 1e-2 epsilon of zero yet nonzero; `split_excess` does not
report "nothing to redistribute" and writes an audit event anyway. -/
theorem split_epsilon_cex :
    sum_balances ⟨[(1, 1/200)], []⟩ = some (1/200) ∧
    |(1 : Money)/200| < 1/100 ∧
    (split_excess ⟨[(1, 1/200)], []⟩ none 0).map Prod.fst
      ≠ some SplitOutcome.nothingToSplit ∧
    (split_excess ⟨[(1, 1/200)], []⟩ none 0).map
      (fun p => p.2.balance_changes.length) = some 1 := by
  refine ⟨by norm_num [sum_balances], by rw [abs_of_pos] <;> norm_num, ?_, ?_⟩
  · simp [split_excess, sum_balances, split_targets, update_balance,
      update_balance_stmt1, update_balance_stmt2, update_users]
  · simp [split_excess, sum_balances, split_targets, update_balance,
      update_balance_stmt1, update_balance_stmt2, update_users]

/-- C3 (amended): `split_excess` reports "nothing to redistribute" and
performs no writes exactly on an exactly-zero global sum (the Python
compares `total_balance == 0`); there is no epsilon tolerance. -/
theorem split_exact_zero_no_writes (db : DB) (ms : Option (List UserId))
    (t : Nat) (h : sum_balances db = some 0) :
    split_excess db ms t = some (.nothingToSplit, db) := by
  unfold split_excess
  rw [h]
  simp

/-- Witness for C3 (amended): two users at 5 and -5 sum to exactly zero
and the state is returned untouched. -/
theorem split_exact_zero_no_writes_witness :
    split_excess ⟨[(1, 5), (2, -5)], []⟩ none 3
      = some (.nothingToSplit, ⟨[(1, 5), (2, -5)], []⟩) :=
  split_exact_zero_no_writes ⟨[(1, 5), (2, -5)], []⟩ none 3
    (by norm_num [sum_balances])

/-- The redistribution loop appends one audit event per target, all
carrying the same share and reason. -/
theorem balance_changes_foldl_update (c : Money) (r : Option String) (t : Nat) :
    ∀ (us : List UserId) (db : DB),
      (us.foldl (fun d u => update_balance d u c r t) db).balance_changes
        = db.balance_changes ++ us.map (fun u => ⟨u, c, r, t⟩)
  | [], db => by simp
  | u :: us, db => by
    rw [List.foldl_cons, balance_changes_foldl_update c r t us]
    show (update_balance db u c r t).balance_changes ++ _ = _
    show db.balance_changes ++ [⟨u, c, r, t⟩] ++ _ = _
    simp

/-- C4 counterexample: redistributing A=30, B=0 over [A,B] records both
audit events with no reason at all — not with reason
"excess redistribution" as claimed. -/
theorem split_reason_cex :
    (split_excess ⟨[(1, 30), (2, 0)], []⟩ (some [1, 2]) 0).map
      (fun p => p.2.balance_changes.map (fun e => e.reason))
      = some [none, none] ∧
    (none : Option String) ≠ some "excess redistribution" := by
  constructor
  · simp [split_excess, sum_balances, split_targets, update_balance,
      update_balance_stmt1, update_balance_stmt2, update_users]
  · simp

/-- C4 (amended): with a nonzero total and a non-empty target list the
code reports share `-1 * (total / n)` and issues one `update_balance` per
target with that share and no reason (`None`), appending the matching
audit events; on A=30, B=0 the shares are -15 and the final balances 15
and -15. -/
theorem split_share_formula (db : DB) (ms : List UserId) (t : Nat)
    (total : Money) (hms : ms ≠ []) (hsum : sum_balances db = some total)
    (h0 : ¬total = 0) :
    (split_excess db (some ms) t).map Prod.fst
      = some (.done total (-1 * (total / (ms.length : Money)))) ∧
    (split_excess db (some ms) t).map (fun p => p.2.balance_changes)
      = some (db.balance_changes
          ++ ms.map (fun u =>
              ⟨u, -1 * (total / (ms.length : Money)), none, t⟩)) := by
  have hne : ¬sum_balances db = some 0 := by
    rw [hsum]
    exact fun hh => h0 (by simpa using hh)
  cases ms with
  | nil => exact absurd rfl hms
  | cons a as =>
    have htargets : split_targets db (some (a :: as)) = a :: as := rfl
    unfold split_excess
    rw [hsum] at hne ⊢
    simp only [if_neg hne, htargets, reduceCtorEq, if_neg (List.cons_ne_nil a as),
      Option.map_some]
    constructor
    · rfl
    · exact congrArg some (balance_changes_foldl_update _ none t (a :: as) db)

/-- C5: history reconstruction fetches the user's events sorted by
timestamp ascending; the series before downsampling is the cumulative sums
of the deltas followed by the synthetic final point at the current ledger
balance, so deltas [+10, -3, +5] yield [10, 7, 12] plus that point. -/
theorem history_cumulative_series (db : DB) (u : UserId) :
    List.Pairwise (fun a b : BalanceChange => a.timestamp ≤ b.timestamp)
      (fetch_changes db u) ∧
    raw_balances db u
      = cumsum ((fetch_changes db u).map (fun e => e.change))
        ++ [get_balance db u] ∧
    ((fetch_changes db u).map (fun e => e.change) = [10, -3, 5] →
      raw_balances db u = [10, 7, 12, get_balance db u]) := by
  refine ⟨?_, rfl, ?_⟩
  · have h := pairwise_sortBy
      (fun a b : BalanceChange => decide (a.timestamp ≤ b.timestamp))
      (fun x y z hxy hyz => by
        simp only [decide_eq_true_eq] at hxy hyz ⊢
        omega)
      (fun x y hxy => by
        simp only [decide_eq_false_iff_not] at hxy
        simp only [decide_eq_true_eq]
        omega)
      (db.balance_changes.filter (fun e => e.user_id == u))
    exact h.imp (fun hxy => by simpa using hxy)
  · intro h
    show cumsum ((fetch_changes db u).map (fun e => e.change))
        ++ [get_balance db u] = _
    rw [h]
    norm_num [cumsum, cumsumFrom]

/-- Witness for C5: three events with deltas 10, -3, 5 at increasing
timestamps produce the cumulative series [10, 7, 12] plus the synthetic
current-balance point. -/
theorem history_cumulative_series_witness :
    (fetch_changes ⟨[(1, 12)],
        [⟨1, 10, none, 1⟩, ⟨1, -3, none, 2⟩, ⟨1, 5, none, 3⟩]⟩ 1).map
      (fun e => e.change) = [10, -3, 5] ∧
    raw_balances ⟨[(1, 12)],
        [⟨1, 10, none, 1⟩, ⟨1, -3, none, 2⟩, ⟨1, 5, none, 3⟩]⟩ 1
      = [10, 7, 12, get_balance ⟨[(1, 12)],
          [⟨1, 10, none, 1⟩, ⟨1, -3, none, 2⟩, ⟨1, 5, none, 3⟩]⟩ 1] := by
  have hm : (fetch_changes ⟨[(1, 12)],
      [⟨1, 10, none, 1⟩, ⟨1, -3, none, 2⟩, ⟨1, 5, none, 3⟩]⟩ 1).map
      (fun e => e.change) = [10, -3, 5] := by
    simp [fetch_changes, sortBy, insertSorted]
  exact ⟨hm, (history_cumulative_series ⟨[(1, 12)],
    [⟨1, 10, none, 1⟩, ⟨1, -3, none, 2⟩, ⟨1, 5, none, 3⟩]⟩ 1).2.2 hm⟩

/-- C6 counterexample: an initialized user with zero events yields no
series at all — the code skips it with `continue` — rather than the
claimed single synthetic `(now, currentBalance)` point. -/
theorem history_zero_events_cex :
    fetch_changes ⟨[(7, 0)], []⟩ 7 = [] ∧
    user_graph_points ⟨[(7, 0)], []⟩ 7 100 = none :=
  ⟨rfl, rfl⟩

/-- C6 (amended): a user with zero balance-change events is skipped
entirely by history reconstruction — no series, not even the synthetic
point, is produced for it. -/
theorem history_zero_events_skipped (db : DB) (u : UserId) (now : Nat)
    (h : fetch_changes db u = []) :
    user_graph_points db u now = none := by
  unfold user_graph_points
  rw [if_pos h]

/-- Witness for C6 (amended): a user whose audit log is empty. -/
theorem history_zero_events_skipped_witness :
    user_graph_points ⟨[(7, 0)], []⟩ 7 100 = none :=
  history_zero_events_skipped ⟨[(7, 0)], []⟩ 7 100 rfl

/-- `timedelta.days > 7` holds exactly when the span reaches eight whole
days of seconds. -/
theorem day_threshold (span : Int) :
    Int.fdiv span 86400 > 7 ↔ 8 * 86400 ≤ span := by
  rw [Int.fdiv_eq_ediv _ (by norm_num : (0 : Int) ≤ 86400)]
  constructor
  · intro h
    have h8 : (8 : Int) ≤ span / 86400 := by omega
    have := (Int.le_ediv_iff_mul_le (by norm_num : (0 : Int) < 86400)).mp h8
    omega
  · intro h
    have := (Int.le_ediv_iff_mul_le (by norm_num : (0 : Int) < 86400)).mpr h
    omega

/-- C7 counterexample: a span of 7 days and 1 hour is strictly greater
than 7 days, yet `timedelta.days` floors it to 7, so the code picks the
hour granularity where the claim demands the day granularity. -/
theorem granularity_boundary_cex :
    (raw_timestamps ⟨[(1, 10)], [⟨1, 10, none, 28800⟩]⟩ 1 637200).getLastD 0
        - (raw_timestamps ⟨[(1, 10)], [⟨1, 10, none, 28800⟩]⟩ 1 637200).headD 0
      = 7 * 86400 + 3600 ∧
    (user_graph_points ⟨[(1, 10)], [⟨1, 10, none, 28800⟩]⟩ 1 637200).map
      (fun s => s.granularity) = some Granularity.hour := by
  constructor
  · decide
  · decide

/-- C7 (amended): the granularity switch compares `timedelta.days`, the
span floored to whole days, with 7: day granularity (with downsample step
`max 1 (N / 7)`) is used exactly when the span reaches eight whole days,
and hour granularity (step `max 1 (N / (7 * 24))`) otherwise — not
whenever the real span strictly exceeds 7 days. -/
theorem granularity_whole_days (db : DB) (u : UserId) (now : Nat)
    (h : ¬fetch_changes db u = []) :
    user_graph_points db u now
      = some (if 8 * 86400 ≤ (raw_timestamps db u now).getLastD 0
            - (raw_timestamps db u now).headD 0 then
          ⟨.day,
            everyNth (raw_timestamps db u now)
              (max 1 ((raw_timestamps db u now).length / 7)),
            everyNth (raw_balances db u)
              (max 1 ((raw_timestamps db u now).length / 7))⟩
        else
          ⟨.hour,
            everyNth (raw_timestamps db u now)
              (max 1 ((raw_timestamps db u now).length / (7 * 24))),
            everyNth (raw_balances db u)
              (max 1 ((raw_timestamps db u now).length / (7 * 24)))⟩) := by
  unfold user_graph_points
  rw [if_neg h]
  by_cases hbig : 8 * 86400 ≤ (raw_timestamps db u now).getLastD 0
      - (raw_timestamps db u now).headD 0
  · rw [if_pos ((day_threshold _).mpr hbig), if_pos hbig]
  · rw [if_neg (fun hh => hbig ((day_threshold _).mp hh)), if_neg hbig]

/-- Witness for C7 (amended): one event and a same-hour `now` (span zero:
hour granularity). -/
theorem granularity_whole_days_witness :
    user_graph_points ⟨[(1, 10)], [⟨1, 10, none, 28800⟩]⟩ 1 28800
      = some (if 8 * 86400
            ≤ (raw_timestamps ⟨[(1, 10)], [⟨1, 10, none, 28800⟩]⟩ 1 28800).getLastD 0
            - (raw_timestamps ⟨[(1, 10)], [⟨1, 10, none, 28800⟩]⟩ 1 28800).headD 0 then
          ⟨.day,
            everyNth (raw_timestamps ⟨[(1, 10)], [⟨1, 10, none, 28800⟩]⟩ 1 28800)
              (max 1 ((raw_timestamps ⟨[(1, 10)],
                [⟨1, 10, none, 28800⟩]⟩ 1 28800).length / 7)),
            everyNth (raw_balances ⟨[(1, 10)], [⟨1, 10, none, 28800⟩]⟩ 1)
              (max 1 ((raw_timestamps ⟨[(1, 10)],
                [⟨1, 10, none, 28800⟩]⟩ 1 28800).length / 7))⟩
        else
          ⟨.hour,
            everyNth (raw_timestamps ⟨[(1, 10)], [⟨1, 10, none, 28800⟩]⟩ 1 28800)
              (max 1 ((raw_timestamps ⟨[(1, 10)],
                [⟨1, 10, none, 28800⟩]⟩ 1 28800).length / (7 * 24))),
            everyNth (raw_balances ⟨[(1, 10)], [⟨1, 10, none, 28800⟩]⟩ 1)
              (max 1 ((raw_timestamps ⟨[(1, 10)],
                [⟨1, 10, none, 28800⟩]⟩ 1 28800).length / (7 * 24)))⟩) :=
  granularity_whole_days ⟨[(1, 10)], [⟨1, 10, none, 28800⟩]⟩ 1 28800 (by decide)

/-- C8 counterexample: two users tied at balance 5 — the leaderboard
returns both rows, whose balances are not strictly descending. -/
theorem leaderboard_strict_cex :
    get_leaderboard ⟨[(1, 5), (2, 5)], []⟩ 10 = [(1, 5), (2, 5)] ∧
    ¬List.Chain' (fun a b : UserId × Money => b.2 < a.2)
      (get_leaderboard ⟨[(1, 5), (2, 5)], []⟩ 10) := by
  have h : get_leaderboard ⟨[(1, 5), (2, 5)], []⟩ 10 = [(1, 5), (2, 5)] := by
    norm_num [get_leaderboard, sortBy, insertSorted]
  refine ⟨h, ?_⟩
  rw [h]
  simp only [List.chain'_cons, List.chain'_singleton, and_true]
  norm_num

/-- C8 (amended): `get_leaderboard n` returns at most `n` rows ordered by
descending — non-increasing, not strictly descending — balance. -/
theorem leaderboard_sorted_le (db : DB) (n : Nat) :
    (get_leaderboard db n).length ≤ n ∧
    List.Chain' (fun a b : UserId × Money => b.2 ≤ a.2)
      (get_leaderboard db n) := by
  constructor
  · unfold get_leaderboard
    rw [List.length_take]
    omega
  · have hp := pairwise_sortBy (fun a b : UserId × Money => decide (b.2 ≤ a.2))
      (fun x y z hxy hyz => by
        simp only [decide_eq_true_eq] at hxy hyz ⊢
        exact le_trans hyz hxy)
      (fun x y hxy => by
        simp only [decide_eq_false_iff_not] at hxy
        simp only [decide_eq_true_eq]
        exact le_of_not_le hxy)
      db.users
    have hp' : (sortBy (fun a b : UserId × Money => decide (b.2 ≤ a.2))
        db.users).Pairwise (fun a b => b.2 ≤ a.2) :=
      hp.imp (fun hxy => by simpa using hxy)
    exact (hp'.sublist (List.take_sublist n _)).chain'

/-- Witness for C4 (amended): the A=30, B=0 example; the reported share is
-15 and the final balances are 15 and -15. -/
theorem split_share_formula_witness :
    (split_excess ⟨[(1, 30), (2, 0)], []⟩ (some [1, 2]) 5).map Prod.fst
      = some (.done 30 (-1 * (30 / (([1, 2] : List UserId).length : Money)))) ∧
    (split_excess ⟨[(1, 30), (2, 0)], []⟩ (some [1, 2]) 5).map
      (fun p => (get_balance p.2 1, get_balance p.2 2)) = some (15, -15) :=
  ⟨(split_share_formula ⟨[(1, 30), (2, 0)], []⟩ [1, 2] 5 30 (by simp)
      (by norm_num [sum_balances]) (by norm_num)).1,
   by
    simp [split_excess, sum_balances, split_targets, update_balance,
      update_balance_stmt1, update_balance_stmt2, update_users, get_balance,
      List.find?]
    norm_num⟩

end PokerBot
